import Mathlib

/-!
Shallow embedding of the SATE_Performance report scripts' aggregation and
concentration-analysis logic (src/season_1.py, src/season_2.py,
src/season_3.py, src/archive/season_2.py).  Monetary amounts are modelled as
exact rationals; where the Python code performs pandas/numpy elementwise
float division whose zero-denominator behaviour matters (such division yields
inf or nan rather than raising), results are wrapped in the type `FVal`,
which keeps finite values exact and the inf/nan outcomes symbolic.
-/

/-- Result of a pandas/numpy elementwise floating arithmetic expression:
a finite value (kept exact as a rational), a signed infinity, or NaN. -/
inductive FVal where
  | fin : ℚ → FVal
  | posInf : FVal
  | negInf : FVal
  | nan : FVal
deriving DecidableEq

/-- Division of exact rationals with the zero-denominator behaviour of numpy
elementwise float division: finite quotient for a nonzero denominator, signed
infinity for a nonzero numerator over zero, NaN for 0/0. -/
def fdivQ (num den : ℚ) : FVal :=
  if den ≠ 0 then .fin (num / den)
  else if 0 < num then .posInf
  else if num < 0 then .negInf
  else .nan

/-- Subtract a finite constant from an `FVal` (infinities and NaN absorb the
subtraction, as in IEEE arithmetic). -/
def fsubC : FVal → ℚ → FVal
  | .fin a, q => .fin (a - q)
  | .posInf, _ => .posInf
  | .negInf, _ => .negInf
  | .nan, _ => .nan

/-- Ascending sort, modelling `np.sort`. -/
def sortAsc (xs : List ℚ) : List ℚ :=
  xs.insertionSort (· ≤ ·)

/-- `calculate_gini` from src/season_1.py lines 276-281: sort ascending, then
return `(2 * Σ (n - i + 1) * x_i) / (n * cumsum[-1]) - (n + 1) / n` with `i`
the 1-based position in the ascending order (so the weights run from `n` down
to `1`).  `none` models the IndexError that `cumsum[-1]` raises on an empty
input; the division is numpy float division, hence `fdivQ`. -/
def calculate_gini (values : List ℚ) : Option FVal :=
  if values.isEmpty then none
  else
    let sorted_values := sortAsc values
    let n : ℚ := values.length
    let weighted := (sorted_values.enum.map
      (fun p => (n - ((p.1 : ℚ) + 1) + 1) * p.2)).sum
    some (fsubC (fdivQ (2 * weighted) (n * sorted_values.sum)) ((n + 1) / n))

/-- Multiply an `FVal` by the positive scale factor 100, as the `* 100`
applied to every ratio column (infinities keep their sign, NaN stays NaN). -/
def fmul100 : FVal → FVal
  | .fin a => .fin (a * 100)
  | .posInf => .posInf
  | .negInf => .negInf
  | .nan => .nan

/-- Column `درصد قرارداد` of `subjects_summary` (src/season_2.py line 104):
`(contract_amount / credit) * 100` as a pandas elementwise float division, so
a zero credit is not guarded and yields an infinity or NaN. -/
def pct_contract (contract credit : ℚ) : FVal :=
  fmul100 (fdivQ contract credit)

/-- Column `درصد پرداخت از اعتبار` (src/season_2.py line 105):
`(payment / credit) * 100`, likewise unguarded. -/
def pct_payment_of_credit (payment credit : ℚ) : FVal :=
  fmul100 (fdivQ payment credit)

/-- Column `درصد پرداخت از قرارداد` (src/season_2.py lines 106-110):
`np.where(contract > 0, payment / contract * 100, 0)` — an explicit guard
that substitutes the number 0 whenever the contract amount is not positive. -/
def pct_payment_of_contract (payment contract : ℚ) : FVal :=
  if 0 < contract then fmul100 (fdivQ payment contract) else .fin 0

/-- C1: the claim says `calculate_gini` implements the standard discrete Gini
formula, so that for amounts `[100, 0, 0, 0, 0]` the result is close to `0.8`
and always lies in `[0, 1]`.  The code instead pairs descending weights
`(n - i + 1)` with ascending-sorted values, which yields the negation of the
standard formula: on `[100, 0, 0, 0, 0]` it returns exactly `-4/5 = -0.8`,
outside `[0, 1]`. -/
theorem gini_concentrated_negative :
    calculate_gini [100, 0, 0, 0, 0] = some (.fin (-(4/5))) := by
  norm_num [calculate_gini, sortAsc, List.insertionSort, List.orderedInsert,
    List.enum, List.enumFrom, fdivQ, fsubC]

/-- C7 counterexample: for the single non-negative amount `0`, the code
computes `(2*0)/(1*0) - 2`, whose numpy float division `0/0` is NaN, so the
result is NaN rather than the claimed `0`. -/
theorem gini_single_zero_nan :
    calculate_gini [0] = some .nan ∧ some FVal.nan ≠ some (FVal.fin 0) := by
  constructor
  · norm_num [calculate_gini, sortAsc, List.insertionSort, List.orderedInsert,
      List.enum, List.enumFrom, fdivQ, fsubC]
  · simp

/-- C7 amended: for a single-element input holding one positive amount,
`calculate_gini` returns exactly `0`, and no division error is raised (the
function totally returns a value, i.e. `some _`). -/
theorem gini_single_positive_zero (x : ℚ) (hx : 0 < x) :
    calculate_gini [x] = some (.fin 0) := by
  have hne : (1 : ℚ) * x ≠ 0 := by simpa using ne_of_gt hx
  norm_num [calculate_gini, sortAsc, List.insertionSort, List.orderedInsert,
    List.enum, List.enumFrom, fdivQ, fsubC, hne]
  simp [hx.ne']

/-- Witness for `gini_single_positive_zero` at the concrete input `[100]`. -/
theorem gini_single_positive_zero_witness :
    (0 : ℚ) < 100 ∧ calculate_gini [100] = some (.fin 0) :=
  ⟨by norm_num, gini_single_positive_zero 100 (by norm_num)⟩

/-- C2 counterexample: the claim says a zero denominator with nonzero
numerator yields an explicit null/undefined sentinel, never a silent 0 and
never an infinity.  The code instead produces `+inf` for credit = 0 with
contract = 50 (plain pandas division) and the plain number 0 for
contract = 0 with payment = 10 (the `np.where` branch). -/
theorem ratio_zero_denominator_counterexample :
    pct_contract 50 0 = FVal.posInf ∧
    pct_payment_of_contract 10 0 = FVal.fin 0 ∧
    FVal.posInf ≠ FVal.nan := by
  refine ⟨?_, ?_, by simp⟩
  · norm_num [pct_contract, fdivQ, fmul100]
  · norm_num [pct_payment_of_contract, fdivQ, fmul100]

/-- C2 amended: when the contract amount is 0 (or negative), the
payment-from-contract ratio is explicitly set to the number 0 by the
`np.where` guard, for any payment; and when the credit is 0 while the
contract amount is positive, the contract ratio is `+inf` propagated from the
unguarded float division — no null/undefined sentinel is ever produced. -/
theorem ratio_zero_denominator_policy (p c : ℚ) (hc : 0 < c) :
    pct_payment_of_contract p 0 = FVal.fin 0 ∧ pct_contract c 0 = FVal.posInf := by
  constructor
  · norm_num [pct_payment_of_contract]
  · simp [pct_contract, fdivQ, fmul100, hc, hc.ne']

/-- Witness for `ratio_zero_denominator_policy` at payment 10, contract 50. -/
theorem ratio_zero_denominator_policy_witness :
    (0 : ℚ) < 50 ∧
    (pct_payment_of_contract 10 0 = FVal.fin 0 ∧ pct_contract 50 0 = FVal.posInf) :=
  ⟨by norm_num, ratio_zero_denominator_policy 10 50 (by norm_num)⟩

/-! ## Digit localisation (`convert_to_persian_number`) -/

/-- The translation table built by `str.maketrans` in
`convert_to_persian_number` (src/season_1.py lines 52-57; identical copies in
src/season_2.py lines 44-49 and src/season_3.py lines 83-88):
`'0123456789.,%'` maps positionally onto `'۰۱۲۳۴۵۶۷۸۹.،٪'` — the ten
Persian digits, then `'.'` (which maps to itself), the Arabic comma and the
Arabic percent sign. -/
def digit_table : List (Char × Char) :=
  [('0', '۰'), ('1', '۱'), ('2', '۲'), ('3', '۳'), ('4', '۴'),
   ('5', '۵'), ('6', '۶'), ('7', '۷'), ('8', '۸'), ('9', '۹'),
   ('.', '.'), (',', '،'), ('%', '٪')]

/-- `str.translate`: a character in the table is replaced by its image,
every other character passes through unchanged. -/
def translateChar (c : Char) : Char :=
  ((digit_table.find? (fun p => p.1 == c)).map Prod.snd).getD c

/-- `convert_to_persian_number` (src/season_1.py lines 52-57):
`str(number).translate(translation_table)`, modelled on the string argument
character by character. -/
def convert_to_persian_number (s : String) : String :=
  ⟨s.data.map translateChar⟩

/-- Every character the translation can output is a fixed point of the
translation: the Persian digits, Arabic comma and Arabic percent sign are
outside the table's domain, and `'.'` maps to itself. -/
theorem translateChar_output_fixed :
    ∀ d ∈ digit_table.map Prod.snd, translateChar d = d := by decide

/-- `translateChar` is idempotent on every character. -/
theorem translateChar_idem (c : Char) :
    translateChar (translateChar c) = translateChar c := by
  cases hfind : digit_table.find? (fun p => p.1 == c) with
  | none => simp [translateChar, hfind]
  | some p =>
    have hp : p ∈ digit_table := List.mem_of_find?_eq_some hfind
    have hc : translateChar c = p.2 := by simp [translateChar, hfind]
    rw [hc]
    exact translateChar_output_fixed p.2 (List.mem_map_of_mem Prod.snd hp)

/-- C10: `convert_to_persian_number` is idempotent — applying it twice gives
the same string as applying it once, because every output character is either
outside the translation domain or (for `'.'`) mapped to itself. -/
theorem convert_to_persian_number_idem (s : String) :
    convert_to_persian_number (convert_to_persian_number s) =
      convert_to_persian_number s := by
  unfold convert_to_persian_number
  simp only [List.map_map]
  exact congrArg String.mk (List.map_congr_left (fun c _ => translateChar_idem c))

/-- Witness for `convert_to_persian_number_idem` at the concrete string
"12.5%" (the hypothesis here is the trivial universally quantified input). -/
theorem convert_to_persian_number_idem_witness :
    convert_to_persian_number (convert_to_persian_number "12.5%") =
      convert_to_persian_number "12.5%" :=
  convert_to_persian_number_idem "12.5%"

/-! ## Province normalisation (`extract_province`, src/season_3.py lines 99-157) -/

/-- `leadsWith n h`: `n` is an initial segment of `h` (on code points). -/
def leadsWith : List Char → List Char → Bool
  | [], _ => true
  | _ :: _, [] => false
  | a :: as, b :: bs => a == b && leadsWith as bs

/-- `hasSub h n`: the Python substring test `n in h`, on code points. -/
def hasSub : List Char → List Char → Bool
  | [], n => n.isEmpty
  | c :: t, n => leadsWith n (c :: t) || hasSub t n

/-- `strContains hay needle`: Python's `needle in hay` on strings. -/
def strContains (hay needle : String) : Bool :=
  hasSub hay.data needle.data

/-- Python `str.strip()`: drop whitespace from both ends. -/
def stripStr (s : String) : String :=
  ⟨((s.data.dropWhile Char.isWhitespace).reverse.dropWhile Char.isWhitespace).reverse⟩

/-- The province keyword dictionary of `extract_province`
(src/season_3.py lines 107-142), in the source's insertion order, which is
the iteration order of a Python 3.7+ dict. -/
def provinces : List (String × List String) := [
  ("تهران", ["تهران", "شهید بهشتی", "علم و صنعت", "امیرکبیر", "صنعتی شریف", "شریف", "الزهرا", "خواجه نصیر"]),
  ("اصفهان", ["اصفهان", "صنعتی اصفهان"]),
  ("شیراز", ["شیراز"]),
  ("فارس", ["شیراز"]),
  ("تبریز", ["تبریز", "صنعتی سهند"]),
  ("آذربایجان شرقی", ["تبریز", "سهند"]),
  ("مشهد", ["مشهد", "فردوسی"]),
  ("خراسان رضوی", ["مشهد", "فردوسی"]),
  ("اهواز", ["اهواز", "چمران"]),
  ("خوزستان", ["اهواز", "چمران", "جندی شاپور"]),
  ("کرمان", ["کرمان", "باهنر", "شهید باهنر"]),
  ("گیلان", ["گیلان", "رشت"]),
  ("مازندران", ["مازندران", "بابلسر", "ساری", "نوشیروانی", "بابل"]),
  ("کرمانشاه", ["کرمانشاه", "رازی"]),
  ("همدان", ["همدان", "بوعلی سینا"]),
  ("قزوین", ["قزوین", "امام خمینی"]),
  ("یزد", ["یزد"]),
  ("سمنان", ["سمنان"]),
  ("اردبیل", ["اردبیل", "محقق اردبیلی"]),
  ("زنجان", ["زنجان"]),
  ("کردستان", ["کردستان", "سنندج"]),
  ("آذربایجان غربی", ["ارومیه", "ارمیه"]),
  ("لرستان", ["لرستان", "خرم آباد"]),
  ("ایلام", ["ایلام"]),
  ("بوشهر", ["بوشهر", "خلیج فارس"]),
  ("هرمزگان", ["هرمزگان", "بندرعباس"]),
  ("سیستان و بلوچستان", ["سیستان", "بلوچستان", "زاهدان"]),
  ("خراسان شمالی", ["بجنورد"]),
  ("خراسان جنوبی", ["بیرجند"]),
  ("البرز", ["البرز", "کرج"]),
  ("قم", ["قم"]),
  ("چهارمحال و بختیاری", ["شهرکرد"]),
  ("کهگیلویه و بویراحمد", ["یاسوج"]),
  ("گلستان", ["گلستان", "گرگان"])]

/-- The fallback list of main province names checked when no keyword of any
dictionary entry matched (src/season_3.py lines 151-152). -/
def main_provinces : List String :=
  ["تهران", "اصفهان", "فارس", "خوزستان", "خراسان رضوی",
   "آذربایجان شرقی", "مازندران", "کرمان", "گیلان"]

/-- One dictionary entry matches a name when some of its keywords occurs as a
substring of the name (the inner loop of src/season_3.py lines 145-148). -/
def provMatches (name : String) (pr : String × List String) : Bool :=
  pr.2.any (fun k => strContains name k)

/-- `extract_province` (src/season_3.py lines 99-157).  `none` models an
input for which `pd.isna` is true; a string input is stripped and looked up
first against the keyword dictionary in insertion order, then against the
fallback list of main province names, and defaults to the sentinel
`"سایر"` ("other"). -/
def extract_province (university_name : Option String) : String :=
  match university_name with
  | none => "نامشخص"
  | some s =>
    let name := stripStr s
    match provinces.find? (fun pr => provMatches name pr) with
    | some pr => pr.1
    | none =>
      match main_provinces.find? (fun prov => strContains name prov) with
      | some prov => prov
      | none => "سایر"


/-- If position `i` of `l` satisfies `p` and no earlier position does, then
`l.find? p` returns exactly the element at position `i`. -/
theorem find?_first {α : Type} (p : α → Bool) (l : List α) :
    ∀ (i : Nat) (hi : i < l.length), p (l.get ⟨i, hi⟩) = true →
      (∀ j (hj : j < i), p (l.get ⟨j, Nat.lt_trans hj hi⟩) = false) →
      l.find? p = some (l.get ⟨i, hi⟩) := by
  induction l with
  | nil => intro i hi _ _; exact absurd hi (Nat.not_lt_zero i)
  | cons a t ih =>
    intro i hi hp hearl
    cases i with
    | zero => exact List.find?_cons_of_pos _ hp
    | succ i =>
      have ha : p a = false := hearl 0 (Nat.succ_pos _)
      rw [List.find?_cons_of_neg _ (by simp [ha])]
      exact ih i (Nat.lt_of_succ_lt_succ hi) hp
        (fun j hj => hearl (j + 1) (Nat.succ_lt_succ hj))

/-- C3 counterexample: the claim says the empty string maps to the distinct
"unknown" sentinel, but only `pd.isna` inputs reach the `'نامشخص'` branch; an
empty string is a non-NaN value, no keyword occurs in it, and the function
falls through to the "other" sentinel `'سایر'`. -/
theorem extract_province_empty_counterexample :
    extract_province (some "") = "سایر" ∧ ("سایر" : String) ≠ "نامشخص" := by
  constructor
  · decide
  · decide

/-- C3 amended: `extract_province` is total; a null (`pd.isna`) input returns
the "unknown" sentinel `'نامشخص'`, which is distinct from the "other"
sentinel `'سایر'`; an empty string, however, returns `'سایر'`, not the
"unknown" sentinel. -/
theorem extract_province_null_unknown :
    extract_province none = "نامشخص" ∧ ("نامشخص" : String) ≠ "سایر" ∧
      extract_province (some "") = "سایر" := by
  refine ⟨by decide, by decide, by decide⟩

/-- C6: the declared iteration order decides the winner — if entry `i` of the
keyword dictionary matches the stripped name and no earlier entry does, then
`extract_province` returns exactly that entry's province, regardless of any
later entries that may also match. -/
theorem extract_province_first_match (s : String) (i : Nat)
    (hi : i < provinces.length)
    (hm : provMatches (stripStr s) (provinces.get ⟨i, hi⟩) = true)
    (he : ∀ j (hj : j < i),
      provMatches (stripStr s) (provinces.get ⟨j, Nat.lt_trans hj hi⟩) = false) :
    extract_province (some s) = (provinces.get ⟨i, hi⟩).1 := by
  have hfind :=
    find?_first (fun pr => provMatches (stripStr s) pr) provinces i hi hm he
  simp only [extract_province, hfind]

/-- Witness for `extract_province_first_match`: the name `"دانشگاه شیراز"`
matches entry 2 (`شیراز`) and also the later entry 3 (`فارس`, whose keyword
list contains the same city name); entries 0 and 1 do not match, so the
earlier entry `شیراز` wins. -/
theorem extract_province_first_match_witness :
    extract_province (some "دانشگاه شیراز") = "شیراز" :=
  (extract_province_first_match "دانشگاه شیراز" 2 (by decide) (by decide)
    (by decide)).trans (by decide)

/-! ## Groupby-sum aggregation (src/season_2.py lines 94-97,
src/season_3.py lines 183-189) -/

/-- The distinct grouping keys of a record list, in first-appearance order —
the groups formed by `df.groupby(key)`.  A record is one source row: its
grouping key (subject or university name) and one numeric amount column. -/
def group_keys (rs : List (String × ℚ)) : List String :=
  (rs.map Prod.fst).dedup

/-- The `'sum'` aggregation of one group: the total of the amount column over
the records carrying key `k`. -/
def group_sum (rs : List (String × ℚ)) (k : String) : ℚ :=
  ((rs.filter (fun r => r.1 == k)).map Prod.snd).sum

/-- Summing over two disjoint filters equals summing over their union. -/
theorem sum_filter_disjoint (p q : (String × ℚ) → Bool) :
    ∀ rs : List (String × ℚ), (∀ r, ¬(p r = true ∧ q r = true)) →
      ((rs.filter p).map Prod.snd).sum + ((rs.filter q).map Prod.snd).sum =
        ((rs.filter (fun r => p r || q r)).map Prod.snd).sum := by
  intro rs hdisj
  induction rs with
  | nil => simp
  | cons a t ih =>
    by_cases hp : p a = true
    · have hq : q a = false := by
        cases hqa : q a with
        | false => rfl
        | true => exact absurd ⟨hp, hqa⟩ (hdisj a)
      simp only [List.filter_cons, hp, hq, if_true, if_false, Bool.false_eq_true,
        Bool.true_or, List.map_cons, List.sum_cons]
      rw [add_assoc, ih]
    · have hp' : p a = false := by
        cases hpa : p a with
        | false => rfl
        | true => exact absurd hpa hp
      by_cases hq : q a = true
      · simp only [List.filter_cons, hp', hq, if_true, if_false,
          Bool.false_eq_true, Bool.false_or, List.map_cons, List.sum_cons]
        rw [add_left_comm, ih]
      · have hq' : q a = false := by
          cases hqa : q a with
          | false => rfl
          | true => exact absurd hqa hq
        simp only [List.filter_cons, hp', hq', if_false, Bool.false_eq_true,
          Bool.false_or]
        exact ih


/-- Summing the per-group totals over any duplicate-free key list equals the
total over the records whose key belongs to that list. -/
theorem grouped_sum_keys (rs : List (String × ℚ)) :
    ∀ ks : List String, ks.Nodup →
      (ks.map (group_sum rs)).sum =
        ((rs.filter (fun r => ks.contains r.1)).map Prod.snd).sum := by
  intro ks
  induction ks with
  | nil => intro _; simp
  | cons k ks ih =>
    intro hnd
    have hk : k ∉ ks := (List.nodup_cons.mp hnd).1
    have hnd' : ks.Nodup := (List.nodup_cons.mp hnd).2
    simp only [List.map_cons, List.sum_cons, ih hnd']
    have hdis : ∀ r : String × ℚ,
        ¬((r.1 == k) = true ∧ ks.contains r.1 = true) := by
      rintro r ⟨h1, h2⟩
      simp only [beq_iff_eq] at h1
      have h2' : r.1 ∈ ks := by simpa using h2
      exact hk (h1 ▸ h2')
    rw [show group_sum rs k = ((rs.filter (fun r => r.1 == k)).map Prod.snd).sum from rfl,
      sum_filter_disjoint _ _ rs hdis]
    congr 1

/-- C4: conservation of totals under grouping — for every non-empty record
list (the `groupby(...).agg('sum')` of src/season_2.py lines 94-97 and
src/season_3.py lines 183-189), the sum of the per-key aggregated amounts
over all distinct keys equals the sum of the amount column over all input
records. -/
theorem groupby_conservation (rs : List (String × ℚ)) (_hne : rs ≠ []) :
    ((group_keys rs).map (group_sum rs)).sum = (rs.map Prod.snd).sum := by
  rw [grouped_sum_keys rs (group_keys rs) (List.nodup_dedup _)]
  have hfix : rs.filter (fun r => (group_keys rs).contains r.1) = rs := by
    apply List.filter_eq_self.mpr
    intro r hr
    have hmem : r.1 ∈ group_keys rs :=
      List.mem_dedup.mpr (List.mem_map_of_mem Prod.fst hr)
    simpa using hmem
  rw [hfix]

/-- Witness for `groupby_conservation` on the records
`[("A", 3), ("B", 5), ("A", 7)]`. -/
theorem groupby_conservation_witness :
    ([("A", (3 : ℚ)), ("B", 5), ("A", 7)] ≠ ([] : List (String × ℚ))) ∧
      ((group_keys [("A", (3 : ℚ)), ("B", 5), ("A", 7)]).map
          (group_sum [("A", 3), ("B", 5), ("A", 7)])).sum =
        ([("A", (3 : ℚ)), ("B", 5), ("A", 7)].map Prod.snd).sum :=
  ⟨by simp, groupby_conservation _ (by simp)⟩

/-! ## Concentration curve (src/season_1.py lines 288-293,
src/season_3.py lines 316-318) -/

/-- Running cumulative sums (`Series.cumsum`): `prefixSums xs acc` is the
list of partial sums of `xs` continued from the accumulator `acc`. -/
def prefixSums : List ℚ → ℚ → List ℚ
  | [], _ => []
  | x :: t, acc => (acc + x) :: prefixSums t (acc + x)

/-- `cumsum` of a series, starting from zero. -/
def cumsum (xs : List ℚ) : List ℚ := prefixSums xs 0

/-- Descending sort, modelling `sort_values(ascending=False)`. -/
def sortDesc (xs : List ℚ) : List ℚ :=
  xs.insertionSort (· ≥ ·)

/-- `cumulative_percentage` (src/season_1.py lines 288-292): sort the amounts
descending, cumulative-sum, divide by the total of the sorted series and
scale by 100. -/
def cumulative_percentage (xs : List ℚ) : List ℚ :=
  (cumsum (sortDesc xs)).map (fun c => c / (sortDesc xs).sum * 100)

/-- `cumulative_percent` (src/season_3.py lines 316-318): the same curve
built over the ascending sort used by chart 3-2. -/
def cumulative_percent (xs : List ℚ) : List ℚ :=
  (cumsum (sortAsc xs)).map (fun c => c / (sortAsc xs).sum * 100)

/-- Partial sums of a series of non-negative terms grow monotonically from
the accumulator. -/
theorem chain_prefixSums (ys : List ℚ) :
    ∀ acc, (∀ x ∈ ys, 0 ≤ x) → List.Chain (· ≤ ·) acc (prefixSums ys acc) := by
  induction ys with
  | nil => intro acc _; exact List.Chain.nil
  | cons x t ih =>
    intro acc h
    have hx : 0 ≤ x := h x (List.mem_cons_self x t)
    exact List.Chain.cons (by linarith)
      (ih (acc + x) (fun y hy => h y (List.mem_cons_of_mem x hy)))

/-- The last partial sum is the accumulator plus the series total. -/
theorem getLast?_prefixSums (ys : List ℚ) :
    ∀ acc, ys ≠ [] → (prefixSums ys acc).getLast? = some (acc + ys.sum) := by
  induction ys with
  | nil => intro acc h; exact absurd rfl h
  | cons x t ih =>
    intro acc _
    cases t with
    | nil => simp [prefixSums]
    | cons y u =>
      have ht := ih (acc + x) (by simp)
      show ((acc + x) :: prefixSums (y :: u) (acc + x)).getLast? = _
      rw [show prefixSums (y :: u) (acc + x) =
            (acc + x + y) :: prefixSums u (acc + x + y) from rfl]
      rw [List.getLast?_cons_cons]
      rw [show (acc + x + y) :: prefixSums u (acc + x + y) =
            prefixSums (y :: u) (acc + x) from rfl, ht]
      congr 1
      simp [List.sum_cons]
      ring

/-- Core curve property: over any series of non-negative terms with positive
total, the list `cumsum(ys) / ys.sum * 100` is non-decreasing and its last
entry is exactly 100. -/
theorem curve_props (ys : List ℚ)
    (hpos : ∀ x ∈ ys, 0 ≤ x) (hS : 0 < ys.sum) :
    List.Chain' (· ≤ ·) ((cumsum ys).map (fun c => c / ys.sum * 100)) ∧
      ((cumsum ys).map (fun c => c / ys.sum * 100)).getLast? = some 100 := by
  have hne : ys ≠ [] := by
    intro h
    rw [h] at hS
    simp at hS
  constructor
  · rw [List.chain'_map]
    have h0 : List.Chain (· ≤ ·) 0 (prefixSums ys 0) :=
      chain_prefixSums _ 0 hpos
    have hchain : List.Chain' (· ≤ ·) (cumsum ys) :=
      List.Chain'.tail
        (show List.Chain' (· ≤ ·) (0 :: prefixSums ys 0) from h0)
    refine List.Chain'.imp ?_ hchain
    intro a b hab
    exact mul_le_mul_of_nonneg_right ((div_le_div_iff_of_pos_right hS).mpr hab)
      (by norm_num)
  · rw [List.getLast?_map,
      show cumsum ys = prefixSums ys 0 from rfl,
      getLast?_prefixSums _ 0 hne]
    simp only [Option.map_some']
    rw [zero_add]
    congr 1
    field_simp

/-- C5: for every curve built from non-negative amounts with positive total,
the cumulative percentage is non-decreasing from each rank to the next and
equals exactly 100 at the last rank — both for the season-1 curve over the
descending sort and for the season-3 curve over the ascending sort (the
model is exact rational arithmetic, so the claim's floating-point tolerance
is met exactly). -/
theorem cumulative_percentage_monotone_total (xs : List ℚ)
    (hpos : ∀ x ∈ xs, 0 ≤ x) (htot : 0 < xs.sum) :
    (List.Chain' (· ≤ ·) (cumulative_percentage xs) ∧
      (cumulative_percentage xs).getLast? = some 100) ∧
    (List.Chain' (· ≤ ·) (cumulative_percent xs) ∧
      (cumulative_percent xs).getLast? = some 100) := by
  constructor
  · have hperm : (sortDesc xs).Perm xs := List.perm_insertionSort _ xs
    exact curve_props (sortDesc xs)
      (fun x hx => hpos x (hperm.mem_iff.mp hx))
      (by rw [hperm.sum_eq]; exact htot)
  · have hperm : (sortAsc xs).Perm xs := List.perm_insertionSort _ xs
    exact curve_props (sortAsc xs)
      (fun x hx => hpos x (hperm.mem_iff.mp hx))
      (by rw [hperm.sum_eq]; exact htot)

/-- Witness for `cumulative_percentage_monotone_total` on `[30, 10, 20]`. -/
theorem cumulative_percentage_monotone_total_witness :
    (∀ x ∈ ([30, 10, 20] : List ℚ), 0 ≤ x) ∧ (0 : ℚ) < ([30, 10, 20] : List ℚ).sum ∧
      ((List.Chain' (· ≤ ·) (cumulative_percentage [30, 10, 20]) ∧
        (cumulative_percentage [30, 10, 20]).getLast? = some 100) ∧
      (List.Chain' (· ≤ ·) (cumulative_percent [30, 10, 20]) ∧
        (cumulative_percent [30, 10, 20]).getLast? = some 100)) :=
  ⟨by norm_num, by norm_num,
    cumulative_percentage_monotone_total [30, 10, 20] (by norm_num) (by norm_num)⟩

/-! ## Pareto threshold lookup (src/season_1.py lines 334-339,
src/season_3.py lines 330-337) -/

/-- The 80% threshold lookup
`cum[cum <= 80].index[-1] if len(cum[cum <= 80]) > 0 else 0`
(src/season_3.py line 330; src/season_1.py line 338 is the same expression
with `any(...)` as the guard): the positional index of the last rank whose
cumulative percentage is at most 80, defaulting to 0 when there is none. -/
def index80 (cum : List ℚ) : Nat :=
  (((cum.enum).filter (fun p => decide (p.2 ≤ 80))).map Prod.fst).getLast?.getD 0

/-- A rank is kept by the `cum <= 80` filter exactly when it is a valid index
whose cumulative percentage is at most 80. -/
theorem mem_qualifying (cum : List ℚ) (i : Nat) :
    i ∈ ((cum.enum.filter (fun p => decide (p.2 ≤ 80))).map Prod.fst) ↔
      ∃ h : i < cum.length, cum.get ⟨i, h⟩ ≤ 80 := by
  constructor
  · intro h
    obtain ⟨p, hp, hpi⟩ := List.mem_map.mp h
    obtain ⟨hpe, hple⟩ := List.mem_filter.mp hp
    have hget : cum.get? p.1 = some p.2 :=
      List.mk_mem_enum_iff_get?.mp (by simpa using hpe)
    obtain ⟨hlt, hval⟩ := List.get?_eq_some.mp hget
    subst hpi
    exact ⟨hlt, by rw [hval]; simpa using hple⟩
  · rintro ⟨h, hle⟩
    apply List.mem_map.mpr
    refine ⟨(i, cum.get ⟨i, h⟩), List.mem_filter.mpr ⟨?_, by simpa using hle⟩, rfl⟩
    exact List.mk_mem_enum_iff_get?.mpr (List.get?_eq_get h)

/-- The positions kept by the filter are strictly increasing, because they
are a sublist of `range cum.length`. -/
theorem qualifying_pairwise (cum : List ℚ) :
    (((cum.enum).filter (fun p => decide (p.2 ≤ 80))).map Prod.fst).Pairwise (· < ·) := by
  have hsub : ((cum.enum.filter (fun p => decide (p.2 ≤ 80))).map Prod.fst).Sublist
      (cum.enum.map Prod.fst) := (List.filter_sublist _).map _
  rw [List.enum_map_fst] at hsub
  exact (List.pairwise_lt_range _).sublist hsub

/-- In a strictly increasing list of naturals, every member is at most the
last element. -/
theorem le_of_mem_getLast?_pairwise :
    ∀ l : List Nat, l.Pairwise (· < ·) → ∀ a ∈ l, ∀ b, l.getLast? = some b → a ≤ b := by
  intro l
  induction l with
  | nil => intro _ a ha; exact absurd ha (List.not_mem_nil a)
  | cons x t ih =>
    intro hp a ha b hb
    cases t with
    | nil =>
      have ha' : a = x := by simpa using ha
      have hb' : x = b := by simpa using hb
      omega
    | cons y u =>
      rw [List.getLast?_cons_cons] at hb
      rcases List.mem_cons.mp ha with h1 | h2
      · have hbmem : b ∈ y :: u := List.mem_of_mem_getLast? hb
        have hxb : x < b := (List.pairwise_cons.mp hp).1 b hbmem
        omega
      · exact ih (List.pairwise_cons.mp hp).2 a h2 b hb

/-- C8 amended: the threshold lookup returns the LARGEST qualifying rank —
whenever rank `i` has cumulative percentage ≤ 80, the returned index is a
valid rank with cumulative percentage ≤ 80 and is at least `i`.  (The claim
said ties pick the smallest qualifying rank; the code's `.index[-1]` picks
the largest.) -/
theorem index80_largest_qualifying (cum : List ℚ) (i : Nat) (hi : i < cum.length)
    (hq : cum.get ⟨i, hi⟩ ≤ 80) :
    i ≤ index80 cum ∧
      ∃ hj : index80 cum < cum.length, cum.get ⟨index80 cum, hj⟩ ≤ 80 := by
  have hiL : i ∈ (cum.enum.filter (fun p => decide (p.2 ≤ 80))).map Prod.fst :=
    (mem_qualifying cum i).mpr ⟨hi, hq⟩
  cases hgl : ((cum.enum.filter (fun p => decide (p.2 ≤ 80))).map Prod.fst).getLast? with
  | none =>
    rw [List.getLast?_eq_none_iff] at hgl
    rw [hgl] at hiL
    exact absurd hiL (List.not_mem_nil i)
  | some b =>
    have hidx : index80 cum = b := by simp [index80, hgl]
    have hbL : b ∈ (cum.enum.filter (fun p => decide (p.2 ≤ 80))).map Prod.fst :=
      List.mem_of_mem_getLast? hgl
    obtain ⟨hb1, hb2⟩ := (mem_qualifying cum b).mp hbL
    have hle : i ≤ b :=
      le_of_mem_getLast?_pairwise _ (qualifying_pairwise cum) i hiL b hgl
    rw [hidx]
    exact ⟨hle, hb1, hb2⟩

/-- C8 counterexample: on the curve built from amounts `[100, 0, 0]` (season-3
style, ascending sort), ranks 0 and 1 carry the equal qualifying cumulative
percentage 0 ≤ 80, yet the lookup returns rank 1 — the largest qualifying
rank, not the smallest. -/
theorem index80_tie_counterexample :
    cumulative_percent [100, 0, 0] = [0, 0, 100] ∧
      index80 [0, 0, 100] = 1 ∧ (1 : Nat) ≠ 0 := by
  refine ⟨?_, ?_, by simp⟩
  · norm_num [cumulative_percent, sortAsc, List.insertionSort,
      List.orderedInsert, cumsum, prefixSums]
  · norm_num [index80, List.enum, List.enumFrom, List.filter]

/-- Witness for `index80_largest_qualifying` on the curve `[0, 0, 100]` at
qualifying rank 0. -/
theorem index80_largest_qualifying_witness :
    0 ≤ index80 [0, 0, 100] ∧
      ∃ hj : index80 [0, 0, 100] < ([0, 0, 100] : List ℚ).length,
        ([0, 0, 100] : List ℚ).get ⟨index80 [0, 0, 100], hj⟩ ≤ 80 :=
  index80_largest_qualifying [0, 0, 100] 0 (by norm_num)
    (show ((0 : ℚ) ≤ 80) by norm_num)

/-! ## Loader fallback behaviour (src/archive/season_2.py lines 85-152,
src/season_2.py lines 72-77).  File and sheet I/O is modelled by the input
argument: `none` means the spreadsheet file is missing on disk, `some cols`
means the file was read and its header row holds the column names `cols`. -/

/-- The column rename mapping of `load_and_process_data`
(src/archive/season_2.py lines 96-108). -/
def column_mapping : List (String × String) :=
  [("شماره طبقه بندی", "classification_num"),
   ("نام مشمول", "entity_name"),
   ("عنوان امور", "affairs_title"),
   ("دستگاه اجرایی مرتبط", "executive_org"),
   ("اعتبار 40% سال 1398", "credit_1398"),
   ("اعتبار 40% سال 1399", "credit_1399"),
   ("اعتبار 40% سال 1400", "credit_1400"),
   ("اعتبار 40% سال 1401", "credit_1401"),
   ("اعتبار 60% سال 1402", "credit_1402"),
   ("اعتبار 60% سال 1404", "credit_1404")]

/-- The column-cleaning step of the archive loader: the frame keeps its
original columns and gains the renamed copy of each mapped column that is
actually present (`if persian_col in df.columns`), and the synthetic zero
column `credit_1403` is appended unconditionally (line 127). -/
def renamed_columns (cols : List String) : List String :=
  cols ++ (column_mapping.filter (fun m => cols.contains m.1)).map Prod.snd
    ++ ["credit_1403"]

/-- Outcome of the archive loader: either the processed column set of the
real file, or the synthetic sample dataset of `create_sample_data`. -/
inductive LoadOutcome where
  | loaded : List String → LoadOutcome
  | sample : LoadOutcome
deriving DecidableEq

/-- `load_and_process_data` (src/archive/season_2.py lines 85-152): a missing
file raises FileNotFoundError, which the `except` arm answers with
`create_sample_data()` after printing an error message; any other load error
is likewise answered with the sample data; a readable file is cleaned by
`renamed_columns`. -/
def load_and_process_data (input : Option (List String)) : LoadOutcome :=
  match input with
  | none => .sample
  | some cols => .loaded (renamed_columns cols)

/-- The loader of src/season_2.py lines 72-77: bare `pd.read_excel` calls
with no try/except, so a missing input file propagates FileNotFoundError out
of the script. -/
def season2_load (input : Option (List String)) : Except String (List String) :=
  match input with
  | none => .error "FileNotFoundError"
  | some cols => .ok cols

/-- C9 counterexample: the claim quantifies over every run/loader, but the
current season-2 loader does not treat a missing input file as a recoverable
condition — the error propagates as an unhandled exception. -/
theorem season2_load_missing_file_errors :
    season2_load none = .error "FileNotFoundError" ∧
      ∀ cols, season2_load none ≠ .ok cols := by
  exact ⟨rfl, fun cols h => by cases h⟩

/-- C9 amended: the archive loader (src/archive/season_2.py) does handle a
missing input file as a recoverable condition, substituting the documented
synthetic sample dataset; when the file is present it renames exactly the
mapped columns that exist — a renamed/missing source column is skipped
rather than crashing — and substitutes the zero column `credit_1403`.  Here
the file read with only the column `عنوان امور` gains its renamed copy and
the zero column; the missing mapped columns add nothing. -/
theorem archive_loader_fallback :
    load_and_process_data none = .sample ∧
      load_and_process_data (some ["عنوان امور"]) =
        .loaded ["عنوان امور", "affairs_title", "credit_1403"] ∧
      ∀ cols, ∃ out, load_and_process_data (some cols) = .loaded out := by
  refine ⟨rfl, ?_, fun cols => ⟨renamed_columns cols, rfl⟩⟩
  decide
